import Mathlib

/-!
Verification of the `memo` search subsystem.

This file shallowly embeds the search core of the repository — the
Japanese/fallback tokenizer (`src/search/japanese_tokenizer.rs`), the
tantivy-backed index operations (`src/search/index.rs`), the generation
manager (`src/search/mod.rs`) and the advisory index lock
(`src/search/lock.rs`) — and proves or refutes the specification claims
about them.

Strings handled by the tokenizer are embedded as `List Char` (Rust `char`
is a Unicode scalar value, exactly Lean's `Char`); byte-level reasoning
goes through an explicit UTF-8 encoder.  External collaborators (the
tantivy engine, the `fs2` file lock, the filesystem) are modelled by
their documented contracts, with the repository code translated on top.
-/

/-! ## Character predicates (tokenizer model) -/

/-- Unicode scalar values with the `White_Space` property: the set of
characters on which Rust's `char::is_whitespace` — and hence
`str::split_whitespace`, used by `fallback_tokenize` — splits. -/
def rustIsWhitespace (c : Char) : Bool :=
  c.toNat == 0x09 || c.toNat == 0x0A || c.toNat == 0x0B || c.toNat == 0x0C ||
  c.toNat == 0x0D || c.toNat == 0x20 || c.toNat == 0x85 || c.toNat == 0xA0 ||
  c.toNat == 0x1680 || (0x2000 ≤ c.toNat && c.toNat ≤ 0x200A) ||
  c.toNat == 0x2028 || c.toNat == 0x2029 || c.toNat == 0x202F ||
  c.toNat == 0x205F || c.toNat == 0x3000

/-- Bytes accepted by Rust's `u8::is_ascii_whitespace` (space, tab, newline,
form feed, carriage return — note: not vertical tab `0x0B`).  This is the
predicate of the byte-skipping loop in `fallback_tokenize`. -/
def isAsciiWsByte (b : Nat) : Bool :=
  b == 0x09 || b == 0x0A || b == 0x0C || b == 0x0D || b == 0x20

/-- Characters whose code point is accepted by `u8::is_ascii_whitespace`. -/
def isAsciiWsChar (c : Char) : Bool := isAsciiWsByte c.toNat

/-- Rust `char::is_ascii_punctuation`: `!"#$%&'()*+,-./:;<=>?@[\]^_{|}~` and
backquote, i.e. the four ASCII punctuation ranges. -/
def isAsciiPunct (c : Char) : Bool :=
  (0x21 ≤ c.toNat && c.toNat ≤ 0x2F) || (0x3A ≤ c.toNat && c.toNat ≤ 0x40) ||
  (0x5B ≤ c.toNat && c.toNat ≤ 0x60) || (0x7B ≤ c.toNat && c.toNat ≤ 0x7E)

/-- The fixed set of full-width punctuation marks excluded by
`should_include_token` (`japanese_tokenizer.rs` lines 184-190). -/
def isFullwidthPunct (c : Char) : Bool :=
  c == '、' || c == '。' || c == '！' || c == '？' || c == '（' || c == '）' ||
  c == '「' || c == '」' || c == '・'

/-- Hiragana range used by `should_include_token`: `'あ' ..= 'ん'`,
i.e. code points `U+3042 ..= U+3093`. -/
def isHiragana (c : Char) : Bool := 0x3042 ≤ c.toNat && c.toNat ≤ 0x3093

/-- Katakana range used by `should_include_token`: `'ア' ..= 'ン'`,
i.e. code points `U+30A2 ..= U+30F3`. -/
def isKatakana (c : Char) : Bool := 0x30A2 ≤ c.toNat && c.toNat ≤ 0x30F3

/-- Kanji range used by `should_include_token`: `'一' ..= '龯'`,
i.e. code points `U+4E00 ..= U+9FAF`. -/
def isKanji (c : Char) : Bool := 0x4E00 ≤ c.toNat && c.toNat ≤ 0x9FAF

/-- ASCII lowercasing of one character (the effect of Rust
`str::to_lowercase` on the ASCII range; characters outside `A ..= Z` are
kept as they are, which matches `to_lowercase` on all scripts handled by
this tokenizer, none of which have case). -/
def lowerChar (c : Char) : Char :=
  if 65 ≤ c.toNat && c.toNat ≤ 90 then Char.ofNat (c.toNat + 32) else c

/-- Lowercasing of a whole string (as a character list). -/
def lowerStr (l : List Char) : List Char := l.map lowerChar

/-- Rust `str::trim`: strip leading and trailing Unicode whitespace. -/
def rustTrim (l : List Char) : List Char :=
  ((l.dropWhile rustIsWhitespace).reverse.dropWhile rustIsWhitespace).reverse

/-- Does list `l` start with `p`?  (Rust `str::starts_with`.) -/
def startsWithL (p l : List Char) : Bool := l.take p.length == p

/-! ## UTF-8 encoding -/

/-- UTF-8 encoding of one Unicode scalar value, as a list of byte values. -/
def charUtf8 (c : Char) : List Nat :=
  let n := c.toNat
  if n < 0x80 then [n]
  else if n < 0x800 then [0xC0 + n / 64, 0x80 + n % 64]
  else if n < 0x10000 then
    [0xE0 + n / 4096, 0x80 + (n / 64) % 64, 0x80 + n % 64]
  else
    [0xF0 + n / 262144, 0x80 + (n / 4096) % 64, 0x80 + (n / 64) % 64,
     0x80 + n % 64]

/-- UTF-8 encoding of a string given as a character list; this is the byte
sequence Rust's `str::as_bytes` exposes. -/
def utf8Encode (l : List Char) : List Nat := (l.map charUtf8).flatten

/-- Byte length of a string (Rust `str::len`). -/
def utf8Len (l : List Char) : Nat := (utf8Encode l).length

/-! ## Admission predicates (translated from `japanese_tokenizer.rs`) -/

/-- Translation of `should_include_simple_token` (fallback-mode admission,
`japanese_tokenizer.rs` lines 208-221): drop whitespace-only words and
words made purely of ASCII punctuation; keep every other nonempty word. -/
def shouldIncludeSimpleToken (word : List Char) : Bool :=
  if (rustTrim word).isEmpty then false
  else if word.all isAsciiPunct then false
  else !word.isEmpty

/-- The part-of-speech early-exclusion block of `should_include_token`
(`japanese_tokenizer.rs` lines 166-181): symbols, particles and
auxiliaries are excluded, and so is a single-character noun. -/
def posExcludedCheck (surface : List Char)
    (features : Option (List (List Char))) : Bool :=
  match features with
  | some fv =>
    if !fv.isEmpty then
      let pos := fv.headD []
      if startsWithL ['記', '号'] pos || startsWithL ['助', '詞'] pos ||
          startsWithL ['助', '動', '詞'] pos then true
      else if startsWithL ['名', '詞'] pos && surface.length == 1 then
        true
      else false
    else false
  | none => false

/-- Translation of `should_include_token` (dictionary-mode admission,
`japanese_tokenizer.rs` lines 159-205).  `features` is the morphological
feature vector of the lindera token (index 0 is the part-of-speech tag). -/
def shouldIncludeToken (surface : List Char)
    (features : Option (List (List Char))) : Bool :=
  if (rustTrim surface).isEmpty then false
  else if posExcludedCheck surface features then false
  else if surface.all (fun c => isAsciiPunct c || isFullwidthPunct c) then
    false
  else if surface.any (fun c => isHiragana c || isKatakana c || isKanji c)
    then true
  else decide (utf8Len surface ≥ 2)

/-! ## Fallback tokenization (translated from `fallback_tokenize`) -/

/-- The token record produced by the tokenizer (the fields of tantivy's
`Token` that the source populates): lowercased text, byte offsets into the
source string, and the dense position among admitted tokens. -/
structure Token where
  text : List Char
  offset_from : Nat
  offset_to : Nat
  position : Nat
deriving DecidableEq, Repr

/-- One step of the group-accumulating fold behind `splitWhitespace`. -/
def splitWsStep (c : Char) (acc : List (List Char)) : List (List Char) :=
  if rustIsWhitespace c then [] :: acc
  else
    match acc with
    | [] => [[c]]
    | w :: ws => (c :: w) :: ws

/-- Rust `str::split_whitespace`: the maximal runs of non-whitespace
characters, in order; whitespace runs separate words and are dropped. -/
def splitWhitespace (l : List Char) : List (List Char) :=
  (l.foldr splitWsStep [[]]).filter (fun w => !w.isEmpty)

/-- Number of leading ASCII-whitespace bytes: how far the byte-skipping
`while` loop of `fallback_tokenize` advances from a given offset. -/
def leadWsCount (bs : List Nat) : Nat := (bs.takeWhile isAsciiWsByte).length

/-- The `for word in text.split_whitespace()` loop of `fallback_tokenize`
(`japanese_tokenizer.rs` lines 115-137): skip ASCII-whitespace bytes, emit
the word with its byte offsets if admitted, and advance the byte offset by
the word's byte length in every case. -/
def fallbackLoop (bytes : List Nat) :
    List (List Char) → Nat → Nat → List Token
  | [], _, _ => []
  | w :: ws, off, pos =>
    let off1 := off + leadWsCount (bytes.drop off)
    if !w.isEmpty && shouldIncludeSimpleToken w then
      { text := lowerStr w, offset_from := off1,
        offset_to := off1 + utf8Len w, position := pos }
        :: fallbackLoop bytes ws (off1 + utf8Len w) (pos + 1)
    else fallbackLoop bytes ws (off1 + utf8Len w) pos

/-- Translation of `JapaneseTokenStream::fallback_tokenize`: the token
sequence produced in fallback mode for input `text`. -/
def fallbackTokenize (text : List Char) : List Token :=
  fallbackLoop (utf8Encode text) (splitWhitespace text) 0 0

example : (fallbackTokenize ['あ', 'b']).map Token.text = [['あ', 'b']] := by
  decide

example : fallbackTokenize ['a'] =
    [⟨['a'], 0, 1, 0⟩] := by decide

example : fallbackTokenize ['h', 'i', ' ', 'Y', 'O', 'U'] =
    [⟨['h', 'i'], 0, 2, 0⟩, ⟨['y', 'o', 'u'], 3, 6, 1⟩] := by decide

example : fallbackTokenize ['.', ',', ' ', '!'] = [] := by decide

/-! ## Spec-side class-run segmentation (for the refinement claim C2)

The specification describes fallback segmentation as splitting on maximal
runs of characters of the same coarse character class.  The following
definitions formalize the spec's words (they are deliberately *not*
translated from the source; they exist to be compared with
`fallbackTokenize`). -/

/-- The coarse character classes named by the spec: the two syllabary
classes, the logographic class, Latin letters, digits, punctuation and
whitespace. -/
inductive SpecCharClass where
  | hiragana | katakana | kanji | latin | digit | punct | space | other
deriving DecidableEq, Repr

/-- Class of one character, following the spec's enumeration of coarse
classes. -/
def specCharClass (c : Char) : SpecCharClass :=
  if rustIsWhitespace c then .space
  else if isHiragana c then .hiragana
  else if isKatakana c then .katakana
  else if isKanji c then .kanji
  else if (65 ≤ c.toNat && c.toNat ≤ 90) || (97 ≤ c.toNat && c.toNat ≤ 122)
    then .latin
  else if 48 ≤ c.toNat && c.toNat ≤ 57 then .digit
  else if isAsciiPunct c || isFullwidthPunct c then .punct
  else .other

/-- Splitting into maximal runs of characters of the same coarse class,
with whitespace runs dropped — the segmentation the spec claims fallback
mode performs. -/
def specClassRuns (l : List Char) : List (List Char) :=
  let groups := l.foldr (fun c acc =>
    match acc with
    | [] => [[c]]
    | w :: ws =>
      match w with
      | [] => [c] :: ws
      | d :: _ =>
        if specCharClass c == specCharClass d then (c :: w) :: ws
        else [c] :: w :: ws) []
  groups.filter (fun w =>
    match w with
    | [] => false
    | d :: _ => !(specCharClass d == SpecCharClass.space))

example : specClassRuns ['あ', 'b'] = [['あ'], ['b']] := by decide
example : specClassRuns ['a', 'b', '1', ' ', 'c'] =
    [['a', 'b'], ['1'], ['c']] := by decide

/-! ## Document and index model (translated from `memo.rs` / `index.rs`)

The tantivy engine itself is an external collaborator; its writer/reader
pair is modelled by the documented contract of `add_document` /
`delete_term` / `commit` / `reload`: a committed document list plus a
queue of pending operations that is applied, in order, by `commit`. -/

/-- Parsed front-matter values (the image of `serde_json::Value` under the
conversion in `memo.rs`). -/
inductive MetaVal where
  | null
  | boolv (b : Bool)
  | num (n : Int)
  | str (s : String)
  | arr (xs : List MetaVal)
  | obj (fields : List (String × MetaVal))
deriving Repr

/-- Translation of `MemoDocument` (`memo.rs` lines 13-20): the unit handed
to the search subsystem. -/
structure MemoDocument where
  id : String
  content : String
  path : String
  created_at : Int
  metadata : Option MetaVal
deriving Repr

/-- Field lookup on a front-matter object (`serde_json::Value::get`). -/
def MetaVal.get (v : MetaVal) (key : String) : Option MetaVal :=
  match v with
  | .obj fields => fields.lookup key
  | _ => none

/-- Rust `Value::as_str`. -/
def MetaVal.asStr (v : MetaVal) : Option String :=
  match v with
  | .str s => some s
  | _ => none

/-- Rust `Value::as_array`. -/
def MetaVal.asArray (v : MetaVal) : Option (List MetaVal) :=
  match v with
  | .arr xs => some xs
  | _ => none

/-- One record of the index, as built by `SearchIndex::add_memo`
(`index.rs` lines 146-176): the stored/indexed field values derived from a
`MemoDocument`. -/
structure StoredDoc where
  id : String
  path : String
  content : String
  title : Option String
  tags : List String
  created_at : Int
  metadata : Option MetaVal
deriving Repr

/-- The document record `SearchIndex::add_memo` constructs from a memo:
`title` is populated when `metadata.title` is a string, `tags` once per
string element of `metadata.tags`, and the whole metadata tree is stored. -/
def mkStoredDoc (m : MemoDocument) : StoredDoc :=
  { id := m.id
    path := m.path
    content := m.content
    title := m.metadata.bind (fun fm => (fm.get "title").bind MetaVal.asStr)
    tags :=
      match m.metadata.bind (fun fm => (fm.get "tags").bind MetaVal.asArray)
        with
      | some xs => xs.filterMap MetaVal.asStr
      | none => []
    created_at := m.created_at
    metadata := m.metadata }

/-- A pending operation of the tantivy `IndexWriter` queue. -/
inductive PendingOp where
  | addDoc (d : StoredDoc)
  | deleteTerm (id : String)
deriving Repr

/-- State of one index generation: the committed (reader-visible) records
plus the writer's pending operation queue. -/
structure IndexState where
  committed : List StoredDoc
  pending : List PendingOp
deriving Repr

/-- A freshly created generation: no records, no pending operations. -/
def emptyIndexState : IndexState := { committed := [], pending := [] }

/-- Effect of one pending operation at commit time (tantivy contract:
`delete_term` removes every matching document added before it). -/
def applyOp (docs : List StoredDoc) : PendingOp → List StoredDoc
  | .addDoc d => docs ++ [d]
  | .deleteTerm i => docs.filter (fun d => d.id != i)

namespace SearchIndex

/-- Translation of `SearchIndex::add_memo`: build the record and queue it
on the writer.  Note the source queues an add operation only — it does not
delete a previous record with the same `id` first. -/
def add_memo (idx : IndexState) (m : MemoDocument) : IndexState :=
  { idx with pending := idx.pending ++ [.addDoc (mkStoredDoc m)] }

/-- Translation of `SearchIndex::remove_memo`: queue deletion of every
record whose `id` field equals the memo's id. -/
def remove_memo (idx : IndexState) (m : MemoDocument) : IndexState :=
  { idx with pending := idx.pending ++ [.deleteTerm m.id] }

/-- Translation of `SearchIndex::commit`: apply the pending queue in order
and refresh the reader view. -/
def commit (idx : IndexState) : IndexState :=
  { committed := idx.pending.foldl applyOp idx.committed, pending := [] }

end SearchIndex

/-! ## Query execution model (translated from `SearchIndex::search`) -/

/-- Error kinds surfaced by the search subsystem (the variants of
`MemoError` this model needs). -/
inductive MemoErr where
  | io
  | query
  | openFailed
deriving DecidableEq, Repr

/-- Modelled from the tantivy `QueryParser` contract: parsing either fails
(reportable syntax error, e.g. an unterminated phrase quote) or yields the
query's free-text terms.  The repository delegates parsing wholesale to
tantivy; only "fails or succeeds, and on success search proceeds with the
parsed query" matters for the claims. -/
def parseQuery (q : String) : Option (List String) :=
  if (q.data.count '"') % 2 == 1 then none
  else some ((splitWhitespace q.data).map (fun w => String.mk (lowerStr w)))

/-- Insertion into a list sorted by strictly-descending-or-equal score. -/
def insertByScore (x : Nat × StoredDoc) :
    List (Nat × StoredDoc) → List (Nat × StoredDoc)
  | [] => [x]
  | y :: ys => if y.1 < x.1 then x :: y :: ys else y :: insertByScore x ys

/-- Sort scored documents by descending score (stable: equal scores keep
their first-seen order, matching tantivy's doc-address tie-break). -/
def sortByScoreDesc (l : List (Nat × StoredDoc)) : List (Nat × StoredDoc) :=
  l.foldl (fun acc x => insertByScore x acc) []

/-- Modelled from the tantivy `TopDocs::with_limit` collector contract:
the matching documents sorted by descending score, truncated to `limit`. -/
def topDocs (limit : Nat) (scored : List (Nat × StoredDoc)) :
    List (Nat × StoredDoc) :=
  (sortByScoreDesc scored).take limit

/-- The rehydration loop of `SearchIndex::search` (`index.rs` lines
198-212): each hit's stored `path` is read back via `MemoFile::from_path`
(modelled by `readFile`; `none` = the file is missing or unreadable), and
the first failure aborts the whole query with an error. -/
def rehydrate (readFile : String → Option MemoDocument) :
    List (Nat × StoredDoc) → Except MemoErr (List (Nat × MemoDocument))
  | [] => .ok []
  | (s, d) :: rest =>
    match readFile d.path with
    | none => .error .io
    | some m =>
      match rehydrate readFile rest with
      | .error e => .error e
      | .ok ms => .ok ((s, m) :: ms)

/-- Translation of `SearchIndex::search`: parse the query (parse failure
is an error), rank the committed records (`scoreFn` is the engine's
relevance function over the `content`/`title` fields; `none` = no match),
keep the top 100, and rehydrate every hit from its stored path. -/
def SearchIndex.search (idx : IndexState)
    (scoreFn : List String → StoredDoc → Option Nat)
    (readFile : String → Option MemoDocument) (q : String) :
    Except MemoErr (List (Nat × MemoDocument)) :=
  match parseQuery q with
  | none => .error .query
  | some query =>
    let scored := idx.committed.filterMap
      (fun d => (scoreFn query d).map (fun s => (s, d)))
    rehydrate readFile (topDocs 100 scored)

/-! ## Manager model (translated from `search/mod.rs`)

The filesystem below the index base directory is modelled explicitly: the
pointer (`version`) file's contents, and the set of existing generation
directories.  A generation directory entry carries `some idx` when
`SearchIndex::open` would succeed there with index state `idx`, and
`none` when the directory exists but opening fails (fresh or corrupt
directory).  The association list is newest-first; `List.lookup` reads
the current binding. -/

/-- State of the index base directory. -/
structure ManagerFS where
  version : Option String
  gens : List (String × Option IndexState)
deriving Repr

/-- Rust `str::trim` on a Lean `String`. -/
def trimString (s : String) : String := String.mk (rustTrim s.data)

/-- Overwrite (shadow) the state of one generation directory. -/
def setGen (fs : ManagerFS) (v : String) (g : Option IndexState) :
    ManagerFS :=
  { fs with gens := (v, g) :: fs.gens }

namespace SearchManager

/-- Translation of `SearchManager::get_version` (`mod.rs` lines 39-49):
`None` when the pointer file does not exist, otherwise its contents
trimmed.  (The model treats an existing pointer file as readable.) -/
def get_version (fs : ManagerFS) : Option String := fs.version.map trimString

/-- Translation of `SearchManager::get_current_index` (`mod.rs` lines
51-61): no version, or version pointing at a missing directory, yields
`Ok None`; an existing directory is opened (which can fail). -/
def get_current_index (fs : ManagerFS) :
    Except MemoErr (Option (String × IndexState)) :=
  match get_version fs with
  | none => .ok none
  | some v =>
    match fs.gens.lookup v with
    | none => .ok none
    | some none => .error .openFailed
    | some (some idx) => .ok (some (v, idx))

/-- Translation of `SearchManager::create_new_index` (`mod.rs` lines
63-75).  `ts` is the generation label chrono produces; the `mkdirOk`,
`createOk` and `writeOk` flags model whether `fs::create_dir_all`,
`SearchIndex::create` and the pointer-file `fs::write` succeed.  The
returned pair is (call result, resulting directory state). -/
def create_new_index (fs : ManagerFS) (ts : String)
    (mkdirOk createOk writeOk : Bool) :
    Except MemoErr (String × IndexState) × ManagerFS :=
  if !mkdirOk then (.error .io, fs)
  else
    let fs1 := setGen fs ts none
    if !createOk then (.error .io, fs1)
    else
      let fs2 := setGen fs1 ts (some emptyIndexState)
      if !writeOk then (.error .io, fs2)
      else (.ok (ts, emptyIndexState), { fs2 with version := some ts })

/-- Translation of `SearchManager::add_memo` (`mod.rs` lines 77-92): open
the current generation (creating one when absent), then — under the
generation lock, whose acquire/release brackets the call and cancels out
in this sequential model — add the memo and commit.  Note there is no
deletion of a previous record with the same id. -/
def add_memo (fs : ManagerFS) (m : MemoDocument) (ts : String)
    (mkdirOk createOk writeOk : Bool) : Except MemoErr Unit × ManagerFS :=
  match get_current_index fs with
  | .error e => (.error e, fs)
  | .ok (some (v, idx)) =>
    let idx1 := SearchIndex.commit (SearchIndex.add_memo idx m)
    (.ok (), setGen fs v (some idx1))
  | .ok none =>
    match create_new_index fs ts mkdirOk createOk writeOk with
    | (.error e, fs1) => (.error e, fs1)
    | (.ok (v, idx), fs1) =>
      let idx1 := SearchIndex.commit (SearchIndex.add_memo idx m)
      (.ok (), setGen fs1 v (some idx1))

/-- Translation of `SearchManager::remove_memo` (`mod.rs` lines 94-101):
when a current generation exists, delete-and-commit under the lock; when
none exists, return `Ok` and do nothing. -/
def remove_memo (fs : ManagerFS) (m : MemoDocument) :
    Except MemoErr Unit × ManagerFS :=
  match get_current_index fs with
  | .error e => (.error e, fs)
  | .ok none => (.ok (), fs)
  | .ok (some (v, idx)) =>
    let idx1 := SearchIndex.commit (SearchIndex.remove_memo idx m)
    (.ok (), setGen fs v (some idx1))

/-- Translation of `SearchManager::search` (`mod.rs` lines 104-110): query
the current generation read-only, or return the empty result list when no
generation exists. -/
def search (fs : ManagerFS)
    (scoreFn : List String → StoredDoc → Option Nat)
    (readFile : String → Option MemoDocument) (q : String) :
    Except MemoErr (List (Nat × MemoDocument)) :=
  match get_current_index fs with
  | .error e => .error e
  | .ok none => .ok []
  | .ok (some (_, idx)) => SearchIndex.search idx scoreFn readFile q

end SearchManager

/-! ## Lock model (translated from `search/lock.rs`)

The `fs2` exclusive file lock is an external collaborator; its contract —
`try_lock_exclusive` atomically acquires the lock unless some holder
exists, in which case it reports `WouldBlock` — is modelled as an atomic
step on the set of held generation directories.  Concurrent calls are
represented by the interleavings of these atomic steps. -/

/-- Which generation directories currently have their lock held. -/
structure LockState where
  held : List String
deriving DecidableEq, Repr

/-- The guard returned by a successful acquisition (`IndexLock`): its drop
releases the hold. -/
structure LockHandle where
  dir : String
deriving DecidableEq, Repr

namespace IndexLock

/-- Translation of `IndexLock::try_acquire` (`lock.rs` lines 32-46) over
the atomic `fs2` contract: if the directory's lock is held, report "not
acquired" (`Ok(None)` in the source) and change nothing; otherwise
acquire it. -/
def try_acquire (s : LockState) (dir : String) :
    Option LockHandle × LockState :=
  if s.held.contains dir then (none, s)
  else (some ⟨dir⟩, ⟨dir :: s.held⟩)

/-- Translation of `Drop for IndexLock` (`lock.rs` lines 49-54): release
the hold (the best-effort lock-file unlink does not affect the hold
state). -/
def release (s : LockState) (h : LockHandle) : LockState :=
  ⟨s.held.erase h.dir⟩

end IndexLock

example :
    (SearchManager.search ⟨none, []⟩ (fun _ _ => some 1) (fun _ => none)
      "x") = .ok [] := rfl

example :
    (IndexLock.try_acquire ⟨[]⟩ "g").1 = some ⟨"g"⟩ := by decide

/-! ## Shared helper lemmas -/

/-- When the pointer file is absent, or names a generation directory that
does not exist, `get_current_index` reports "no index" without error. -/
theorem get_current_index_eq_none (fs : ManagerFS)
    (h : fs.version = none ∨
      ∃ v, SearchManager.get_version fs = some v ∧ fs.gens.lookup v = none) :
    SearchManager.get_current_index fs = .ok none := by
  unfold SearchManager.get_current_index
  rcases h with h | ⟨v, hv, hl⟩
  · unfold SearchManager.get_version
    rw [h]
    rfl
  · rw [hv]
    simp only []
    rw [hl]

/-- C4 (claim theorem): for every query, searching on a Manager whose base
directory has no pointer file, or whose pointer file names a missing
generation directory, returns `Ok` with an empty result list. -/
theorem manager_search_empty_index (fs : ManagerFS)
    (scoreFn : List String → StoredDoc → Option Nat)
    (readFile : String → Option MemoDocument) (q : String)
    (h : fs.version = none ∨
      ∃ v, SearchManager.get_version fs = some v ∧ fs.gens.lookup v = none) :
    SearchManager.search fs scoreFn readFile q = .ok [] := by
  unfold SearchManager.search
  rw [get_current_index_eq_none fs h]

/-- C4 witness: a concrete Manager state with no pointer file. -/
theorem manager_search_empty_index_witness :
    SearchManager.search ⟨none, []⟩ (fun _ _ => none) (fun _ => none)
      "anything" = .ok [] :=
  manager_search_empty_index ⟨none, []⟩ (fun _ _ => none) (fun _ => none)
    "anything" (Or.inl rfl)

/-- C9 (claim theorem): with no current generation (no pointer file, or a
dangling pointer), `remove_memo` returns `Ok` and leaves the index base
directory — pointer file and generation directories — entirely unchanged,
while `add_memo` on the same state does create a generation and repoints
the pointer file at it. -/
theorem remove_memo_no_generation (fs : ManagerFS) (m : MemoDocument)
    (h : fs.version = none ∨
      ∃ v, SearchManager.get_version fs = some v ∧ fs.gens.lookup v = none) :
    SearchManager.remove_memo fs m = (.ok (), fs) ∧
    ∀ ts, (SearchManager.add_memo fs m ts true true true).2.version = some ts
    := by
  have hc := get_current_index_eq_none fs h
  constructor
  · unfold SearchManager.remove_memo
    rw [hc]
  · intro ts
    unfold SearchManager.add_memo
    rw [hc]
    simp [SearchManager.create_new_index, setGen]

/-- C9 witness: the empty base directory. -/
theorem remove_memo_no_generation_witness :
    SearchManager.remove_memo ⟨none, []⟩ ⟨"20250130143022", "c", "p", 0, none⟩
      = (.ok (), ⟨none, []⟩) ∧
    (SearchManager.add_memo ⟨none, []⟩ ⟨"20250130143022", "c", "p", 0, none⟩
      "gen1" true true true).2.version = some "gen1" := by
  have h := remove_memo_no_generation ⟨none, []⟩
    ⟨"20250130143022", "c", "p", 0, none⟩ (Or.inl rfl)
  exact ⟨h.1, h.2 "gen1"⟩

/-- C5 (claim theorem): `create_new_index` writes the generation label to
the pointer file only after the fresh index is successfully constructed:
when directory creation or index construction fails, the call returns the
error and the pointer file's content is unchanged; on success the pointer
names a generation whose index is fully initialized. -/
theorem create_new_index_pointer_ordering (fs : ManagerFS) (ts : String)
    (mkdirOk createOk writeOk : Bool) :
    ((mkdirOk = false ∨ createOk = false) →
      (SearchManager.create_new_index fs ts mkdirOk createOk writeOk).1
          = .error .io ∧
      (SearchManager.create_new_index fs ts mkdirOk createOk writeOk).2.version
          = fs.version) ∧
    (mkdirOk = true → createOk = true → writeOk = true →
      (SearchManager.create_new_index fs ts mkdirOk createOk writeOk).1
          = .ok (ts, emptyIndexState) ∧
      (SearchManager.create_new_index fs ts mkdirOk createOk writeOk).2.version
          = some ts ∧
      (SearchManager.create_new_index fs ts mkdirOk createOk
          writeOk).2.gens.lookup ts = some (some emptyIndexState)) := by
  cases mkdirOk <;> cases createOk <;> cases writeOk <;>
    simp [SearchManager.create_new_index, setGen, List.lookup]

/-- C5 witness: a failing directory creation leaves the pointer alone; the
all-success path initializes before repointing. -/
theorem create_new_index_pointer_ordering_witness :
    (SearchManager.create_new_index ⟨some "old", []⟩ "g" false true true).1
        = .error .io ∧
    (SearchManager.create_new_index ⟨some "old", []⟩ "g" false true
        true).2.version = some "old" ∧
    (SearchManager.create_new_index ⟨some "old", []⟩ "g" true true
        true).2.version = some "g" := by
  refine ⟨?_, ?_, ?_⟩
  · exact ((create_new_index_pointer_ordering ⟨some "old", []⟩ "g" false true
      true).1 (Or.inl rfl)).1
  · exact ((create_new_index_pointer_ordering ⟨some "old", []⟩ "g" false true
      true).1 (Or.inl rfl)).2
  · exact ((create_new_index_pointer_ordering ⟨some "old", []⟩ "g" true true
      true).2 rfl rfl rfl).2.1

/-- C8 (claim theorem): on a generation directory whose lock is free, of
two non-blocking `try_acquire` calls the first acquires and the second is
told "not acquired"; once the holder's handle is dropped, a further
`try_acquire` on the directory succeeds again. -/
theorem lock_mutual_exclusion (s : LockState) (dir : String)
    (h : dir ∉ s.held) :
    (IndexLock.try_acquire s dir).1 = some ⟨dir⟩ ∧
    (IndexLock.try_acquire (IndexLock.try_acquire s dir).2 dir).1 = none ∧
    (IndexLock.try_acquire
      (IndexLock.release
        (IndexLock.try_acquire (IndexLock.try_acquire s dir).2 dir).2
        ⟨dir⟩) dir).1 = some ⟨dir⟩ := by
  simp [IndexLock.try_acquire, IndexLock.release, h, List.erase_cons_head]

/-- C8 witness: a directory whose lock nobody holds. -/
theorem lock_mutual_exclusion_witness :
    (IndexLock.try_acquire ⟨[]⟩ "gen").1 = some ⟨"gen"⟩ ∧
    (IndexLock.try_acquire (IndexLock.try_acquire ⟨[]⟩ "gen").2 "gen").1
        = none ∧
    (IndexLock.try_acquire
      (IndexLock.release
        (IndexLock.try_acquire (IndexLock.try_acquire ⟨[]⟩ "gen").2 "gen").2
        ⟨"gen"⟩) "gen").1 = some ⟨"gen"⟩ :=
  lock_mutual_exclusion ⟨[]⟩ "gen" (List.not_mem_nil "gen")

/-- Members of an ordered insertion. -/
theorem mem_insertByScore (a x : Nat × StoredDoc) (l : List (Nat × StoredDoc)) :
    a ∈ insertByScore x l ↔ a = x ∨ a ∈ l := by
  induction l with
  | nil => simp [insertByScore]
  | cons y ys ih =>
    unfold insertByScore
    split
    · simp
    · simp only [List.mem_cons, ih]
      tauto

/-- Ordered insertion preserves descending-score sortedness. -/
theorem insertByScore_pairwise (x : Nat × StoredDoc)
    (l : List (Nat × StoredDoc))
    (h : l.Pairwise (fun a b => b.1 ≤ a.1)) :
    (insertByScore x l).Pairwise (fun a b => b.1 ≤ a.1) := by
  induction l with
  | nil => simp [insertByScore]
  | cons y ys ih =>
    rw [List.pairwise_cons] at h
    unfold insertByScore
    split
    · rename_i hlt
      refine List.Pairwise.cons ?_ (List.Pairwise.cons h.1 h.2)
      intro b hb
      rcases List.mem_cons.mp hb with rfl | hb
      · exact Nat.le_of_lt hlt
      · exact le_trans (h.1 b hb) (Nat.le_of_lt hlt)
    · rename_i hge
      refine List.Pairwise.cons ?_ (ih h.2)
      intro b hb
      rcases (mem_insertByScore b x ys).mp hb with rfl | hb
      · exact Nat.le_of_not_lt hge
      · exact h.1 b hb

/-- The score-descending sort is sorted. -/
theorem sortByScoreDesc_pairwise (l : List (Nat × StoredDoc)) :
    (sortByScoreDesc l).Pairwise (fun a b => b.1 ≤ a.1) := by
  have gen : ∀ (m acc : List (Nat × StoredDoc)),
      acc.Pairwise (fun a b => b.1 ≤ a.1) →
      (m.foldl (fun acc x => insertByScore x acc) acc).Pairwise
        (fun a b => b.1 ≤ a.1) := by
    intro m
    induction m with
    | nil => intro acc h; exact h
    | cons x xs ih =>
      intro acc h
      exact ih (insertByScore x acc) (insertByScore_pairwise x acc h)
  exact gen l [] List.Pairwise.nil

/-- Successful rehydration preserves the hit list's scores (and length). -/
theorem rehydrate_ok_map_fst (readFile : String → Option MemoDocument)
    (l : List (Nat × StoredDoc)) (rs : List (Nat × MemoDocument))
    (h : rehydrate readFile l = .ok rs) :
    rs.map Prod.fst = l.map Prod.fst := by
  induction l generalizing rs with
  | nil =>
    unfold rehydrate at h
    cases h
    rfl
  | cons p rest ih =>
    unfold rehydrate at h
    cases hr : readFile p.2.path with
    | none =>
      rw [hr] at h
      cases h
    | some m =>
      rw [hr] at h
      cases hrec : rehydrate readFile rest with
      | error e => rw [hrec] at h; cases h
      | ok ms =>
        rw [hrec] at h
        cases h
        simp [ih ms hrec]

/-- C6 (claim theorem): `SearchIndex::search` reports malformed queries as
errors, returns `Ok []` for a well-formed query with no matches, and on
success returns at most 100 results ordered by descending relevance
score. -/
theorem search_results_ordered_capped (idx : IndexState)
    (scoreFn : List String → StoredDoc → Option Nat)
    (readFile : String → Option MemoDocument) (q : String) :
    (parseQuery q = none →
      SearchIndex.search idx scoreFn readFile q = .error .query) ∧
    (∀ query, parseQuery q = some query →
      (∀ d ∈ idx.committed, scoreFn query d = none) →
      SearchIndex.search idx scoreFn readFile q = .ok []) ∧
    (∀ rs, SearchIndex.search idx scoreFn readFile q = .ok rs →
      rs.length ≤ 100 ∧ rs.Pairwise (fun a b => b.1 ≤ a.1)) := by
  refine ⟨?_, ?_, ?_⟩
  · intro h
    unfold SearchIndex.search
    rw [h]
  · intro query hq hall
    unfold SearchIndex.search
    rw [hq]
    simp only []
    have hnil : idx.committed.filterMap
        (fun d => (scoreFn query d).map (fun s => (s, d))) = [] := by
      refine List.filterMap_eq_nil_iff.mpr ?_
      intro d hd
      rw [hall d hd]
      rfl
    rw [hnil]
    rfl
  · intro rs hrs
    unfold SearchIndex.search at hrs
    cases hp : parseQuery q with
    | none => rw [hp] at hrs; cases hrs
    | some query =>
      rw [hp] at hrs
      simp only [] at hrs
      have hmap := rehydrate_ok_map_fst readFile _ rs hrs
      have hsorted : (topDocs 100 (idx.committed.filterMap
          (fun d => (scoreFn query d).map (fun s => (s, d))))).Pairwise
          (fun a b => b.1 ≤ a.1) :=
        (sortByScoreDesc_pairwise _).sublist (List.take_sublist _ _)
      constructor
      · have : rs.length = (rs.map Prod.fst).length := by
          rw [List.length_map]
        rw [this, hmap, List.length_map]
        exact List.length_take_le _ _
      · have h1 : ((topDocs 100 _).map Prod.fst).Pairwise
            (fun a b : Nat => b ≤ a) := List.pairwise_map.mpr hsorted
        rw [← hmap] at h1
        exact List.pairwise_map.mp h1

/-- C6 witness: an unterminated phrase quote is a reported parse error. -/
theorem search_results_ordered_capped_witness :
    SearchIndex.search ⟨[], []⟩ (fun _ _ => none) (fun _ => none) "\""
      = .error .query :=
  (search_results_ordered_capped ⟨[], []⟩ (fun _ _ => none) (fun _ => none)
    "\"").1 rfl

/-- Rehydration fails with an I/O error as soon as any collected hit's
backing file is unreadable. -/
theorem rehydrate_error_of_mem (readFile : String → Option MemoDocument)
    (l : List (Nat × StoredDoc))
    (h : ∃ p ∈ l, readFile p.2.path = none) :
    rehydrate readFile l = .error .io := by
  induction l with
  | nil => rcases h with ⟨p, hp, _⟩; cases hp
  | cons p rest ih =>
    rcases h with ⟨x, hx, hnone⟩
    rcases List.mem_cons.mp hx with rfl | hx
    · unfold rehydrate
      rw [hnone]
    · unfold rehydrate
      cases hr : readFile p.2.path with
      | none => rfl
      | some m => rw [ih ⟨x, hx, hnone⟩]

/-- C10 amended (claim theorem): when a document that is among the
collected hits (the top 100 by score) has an unreadable backing file, the
whole query fails with an error — no hit is silently skipped. -/
theorem search_error_on_unreadable_hit (idx : IndexState)
    (scoreFn : List String → StoredDoc → Option Nat)
    (readFile : String → Option MemoDocument) (q : String)
    (query : List String) (hq : parseQuery q = some query)
    (hmem : ∃ p ∈ topDocs 100 (idx.committed.filterMap
      (fun d => (scoreFn query d).map (fun s => (s, d)))),
      readFile p.2.path = none) :
    SearchIndex.search idx scoreFn readFile q = .error .io := by
  unfold SearchIndex.search
  rw [hq]
  simp only []
  exact rehydrate_error_of_mem readFile _ hmem

/-- C10 witness: one indexed document whose backing file is gone. -/
theorem search_error_on_unreadable_hit_witness :
    SearchIndex.search ⟨[⟨"1", "p", "c", none, [], 0, none⟩], []⟩
      (fun _ _ => some 1) (fun _ => none) "x" = .error .io :=
  search_error_on_unreadable_hit ⟨[⟨"1", "p", "c", none, [], 0, none⟩], []⟩
    (fun _ _ => some 1) (fun _ => none) "x" ["x"] rfl
    ⟨(1, ⟨"1", "p", "c", none, [], 0, none⟩), List.mem_singleton.mpr rfl, rfl⟩

/-- A committed index of 101 documents, the `i`-th scoring `i`: the
lowest-scored one falls outside the 100-hit cap. -/
def docC10 (i : Nat) : StoredDoc :=
  ⟨toString i, toString i, "m", none, [], Int.ofNat i, none⟩

/-- The 101-document committed state. -/
def idxC10 : IndexState := ⟨(List.range 101).map docC10, []⟩

/-- Score model for the cap counterexample: every document matches, with
score `created_at`. -/
def scoreC10 : List String → StoredDoc → Option Nat :=
  fun _ d => some d.created_at.toNat

/-- Backing store for the cap counterexample: document `0` is unreadable,
every other one reads back fine. -/
def readC10 : String → Option MemoDocument :=
  fun p => if p = "0" then none else some ⟨p, "m", p, 0, none⟩

/-- C10 counterexample: a committed state in which a matching document's
backing file cannot be read, yet `search` succeeds (with 100 results) —
the unreadable document matched but was not among the collected top-100
hits, refuting the claim as stated. -/
theorem search_error_on_unreadable_hit_counterexample :
    readC10 (docC10 0).path = none ∧
    scoreC10 ["m"] (docC10 0) = some 0 ∧
    docC10 0 ∈ idxC10.committed ∧
    (SearchIndex.search idxC10 scoreC10 readC10 "m").toOption.map
      List.length = some 100 := by
  refine ⟨rfl, rfl, List.mem_map.mpr ⟨0, by decide, rfl⟩, rfl⟩

/-- The committed records of the current generation (empty when none). -/
def currentDocs (fs : ManagerFS) : List StoredDoc :=
  match SearchManager.get_current_index fs with
  | .ok (some (_, idx)) => idx.committed
  | _ => []

/-- Number of index entries carrying a given identifier. -/
def countId (docs : List StoredDoc) (id : String) : Nat :=
  (docs.filter (fun d => d.id == id)).length

/-- The two same-id memos of the upsert counterexample. -/
def memoA : MemoDocument := ⟨"20250130143022", "alpha", "p", 0, none⟩

/-- Second memo with the same identifier but different content. -/
def memoB : MemoDocument := ⟨"20250130143022", "beta", "p", 0, none⟩

/-- Base-directory state after adding `memoA` then `memoB` (same id) via
the Manager's add entry point, each call committing. -/
def fsC1 : ManagerFS :=
  (SearchManager.add_memo
    (SearchManager.add_memo ⟨none, []⟩ memoA "g1" true true true).2
    memoB "g2" true true true).2

/-- C1 counterexample: adding the same identifier twice through the add
entry point (each call commits) leaves TWO entries for that id in the
index, and a search matching that id returns two hits — the add path does
not delete the prior entry. -/
theorem upsert_idempotence_counterexample :
    countId (currentDocs fsC1) "20250130143022" = 2 ∧
    (SearchManager.search fsC1
      (fun _ d => if d.id == "20250130143022" then some 1 else none)
      (fun p => some ⟨"20250130143022", "x", p, 0, none⟩)
      "alpha").toOption.map List.length = some 2 :=
  ⟨rfl, rfl⟩

/-- C1 amended (claim theorem): the add path appends without deleting:
re-indexing an identifier after a commit and committing again leaves TWO
entries for that id — the prior one and a new one reflecting the latest
content.  Exactly-one-entry (upsert) semantics is obtained only by
deleting the id before re-adding, as the edit command does
(remove-then-add), which leaves exactly the latest entry. -/
theorem add_memo_appends_no_upsert (idx : IndexState) (m1 m2 : MemoDocument)
    (hid : m1.id = m2.id) (hp : idx.pending = []) :
    (SearchIndex.commit (SearchIndex.add_memo
      (SearchIndex.commit (SearchIndex.add_memo idx m1)) m2)).committed
      = idx.committed ++ [mkStoredDoc m1, mkStoredDoc m2] ∧
    countId (SearchIndex.commit (SearchIndex.add_memo
      (SearchIndex.commit (SearchIndex.add_memo idx m1)) m2)).committed m2.id
      = countId idx.committed m2.id + 2 ∧
    (SearchIndex.commit (SearchIndex.add_memo
      (SearchIndex.commit (SearchIndex.remove_memo
        (SearchIndex.commit (SearchIndex.add_memo idx m1)) m2)) m2)).committed
      = idx.committed.filter (fun d => d.id != m2.id) ++ [mkStoredDoc m2] := by
  refine ⟨?_, ?_, ?_⟩ <;>
    simp [SearchIndex.commit, SearchIndex.add_memo, SearchIndex.remove_memo,
      hp, applyOp, countId, mkStoredDoc, List.filter_append, hid]

/-- C1 witness for the amended theorem: two same-id memos on a fresh
generation. -/
theorem add_memo_appends_no_upsert_witness :
    (SearchIndex.commit (SearchIndex.add_memo
      (SearchIndex.commit (SearchIndex.add_memo emptyIndexState memoA))
      memoB)).committed
      = [mkStoredDoc memoA, mkStoredDoc memoB] ∧
    countId (SearchIndex.commit (SearchIndex.add_memo
      (SearchIndex.commit (SearchIndex.add_memo emptyIndexState memoA))
      memoB)).committed memoB.id = 2 := by
  have h := add_memo_appends_no_upsert emptyIndexState memoA memoB rfl rfl
  exact ⟨h.1, h.2.1⟩

/-! ## Structure of `splitWhitespace` -/

/-- Non-whitespace test used for run boundaries. -/
def nonWsB (c : Char) : Bool := !rustIsWhitespace c

/-- Taking with `p` after dropping with `p` yields nothing. -/
theorem takeWhile_dropWhile_nil (p : Char → Bool) (l : List Char) :
    (l.dropWhile p).takeWhile p = [] := by
  induction l with
  | nil => rfl
  | cons c l ih =>
    by_cases h : p c
    · simp [List.dropWhile_cons, h, ih]
    · simp [List.dropWhile_cons, List.takeWhile_cons, h]

/-- Dropping with `p` is idempotent. -/
theorem dropWhile_idem (p : Char → Bool) (l : List Char) :
    (l.dropWhile p).dropWhile p = l.dropWhile p := by
  induction l with
  | nil => rfl
  | cons c l ih =>
    by_cases h : p c
    · simp [List.dropWhile_cons, h, ih]
    · simp [List.dropWhile_cons, h]

/-- Shape of the word-building fold: the first group is the leading
non-whitespace run, and the remaining groups are those of the rest. -/
theorem foldr_splitWsStep (l : List Char) :
    l.foldr splitWsStep [[]]
      = l.takeWhile nonWsB
        :: ((l.dropWhile nonWsB).foldr splitWsStep [[]]).tail := by
  induction l with
  | nil => rfl
  | cons c l ih =>
    by_cases h : rustIsWhitespace c
    · have hn : nonWsB c = false := by simp [nonWsB, h]
      simp only [List.foldr_cons, List.takeWhile_cons, hn,
        List.dropWhile_cons, Bool.false_eq_true, if_false, ite_false]
      show splitWsStep c (l.foldr splitWsStep [[]]) =
        [] :: ((c :: l).foldr splitWsStep [[]]).tail
      simp only [List.foldr_cons]
      show splitWsStep c (l.foldr splitWsStep [[]]) =
        [] :: (splitWsStep c (l.foldr splitWsStep [[]])).tail
      unfold splitWsStep
      rw [if_pos h]
      rfl
    · have hn : nonWsB c = true := by simp [nonWsB, h]
      simp only [List.foldr_cons, List.takeWhile_cons, hn,
        List.dropWhile_cons, if_true]
      rw [ih]
      show splitWsStep c
          (l.takeWhile nonWsB
            :: ((l.dropWhile nonWsB).foldr splitWsStep [[]]).tail)
        = (c :: l.takeWhile nonWsB)
            :: ((l.dropWhile nonWsB).foldr splitWsStep [[]]).tail
      unfold splitWsStep
      rw [if_neg h]

/-- Splitting skips a leading whitespace character. -/
theorem splitWhitespace_cons_ws {c : Char} (l : List Char)
    (h : rustIsWhitespace c = true) :
    splitWhitespace (c :: l) = splitWhitespace l := by
  unfold splitWhitespace
  simp only [List.foldr_cons]
  unfold splitWsStep
  rw [if_pos h]
  simp [List.filter_cons]

/-- Splitting at a leading non-whitespace character yields the maximal
run it heads, followed by the splitting of the remainder. -/
theorem splitWhitespace_cons_nonws {c : Char} (l : List Char)
    (h : rustIsWhitespace c = false) :
    splitWhitespace (c :: l)
      = (c :: l.takeWhile nonWsB)
        :: splitWhitespace (l.dropWhile nonWsB) := by
  have hfold := foldr_splitWsStep (c :: l)
  have hn : nonWsB c = true := by simp [nonWsB, h]
  rw [List.takeWhile_cons, hn, List.dropWhile_cons] at hfold
  simp only [hn, if_true] at hfold
  have hm : (l.dropWhile nonWsB).foldr splitWsStep [[]]
      = [] :: ((l.dropWhile nonWsB).foldr splitWsStep [[]]).tail := by
    have h2 := foldr_splitWsStep (l.dropWhile nonWsB)
    rw [takeWhile_dropWhile_nil, dropWhile_idem] at h2
    exact h2
  unfold splitWhitespace
  rw [hfold, hm]
  simp [List.filter_cons]

/-- Every word produced by `splitWhitespace` is nonempty. -/
theorem splitWhitespace_ne_nil {l w : List Char}
    (h : w ∈ splitWhitespace l) : w ≠ [] := by
  unfold splitWhitespace at h
  have := List.of_mem_filter h
  simpa using this

/-- A nonempty whitespace-free string is a single word. -/
theorem splitWhitespace_single {w : List Char} (hne : w ≠ [])
    (hall : ∀ c ∈ w, rustIsWhitespace c = false) :
    splitWhitespace w = [w] := by
  cases w with
  | nil => exact absurd rfl hne
  | cons c l =>
    rw [splitWhitespace_cons_nonws l (hall c (List.mem_cons_self c l))]
    have ht : l.takeWhile nonWsB = l := by
      apply List.takeWhile_eq_self_iff.mpr
      intro x hx
      simp [nonWsB, hall x (List.mem_cons_of_mem c hx)]
    have hd : l.dropWhile nonWsB = [] := by
      apply List.dropWhile_eq_nil_iff.mpr
      intro x hx
      simp [nonWsB, hall x (List.mem_cons_of_mem c hx)]
    rw [ht, hd]
    rfl

/-! ## Spec-side whitespace-run segmentation and its equivalence -/

/-- One step of grouping adjacent characters by their whitespace flag. -/
def specWsStep (c : Char) (acc : List (List Char)) : List (List Char) :=
  match acc with
  | [] => [[c]]
  | w :: ws =>
    match w with
    | [] => [c] :: ws
    | d :: _ =>
      if rustIsWhitespace c == rustIsWhitespace d then (c :: w) :: ws
      else [c] :: w :: ws

/-- Maximal runs of characters with equal whitespace flag, in order. -/
def specWsGroups (l : List Char) : List (List Char) := l.foldr specWsStep []

/-- The spec's description of the separator behaviour: the maximal runs of
non-whitespace characters, obtained by grouping the input into
equal-flag runs and discarding the whitespace runs.  (Defined from the
spec's words, to be compared with the source's `splitWhitespace`.) -/
def specWhitespaceRuns (l : List Char) : List (List Char) :=
  (specWsGroups l).filter (fun w =>
    match w with
    | [] => false
    | d :: _ => !rustIsWhitespace d)

/-- Shape of the grouping fold: the first group collects the leading
characters sharing the head's whitespace flag. -/
theorem specWsGroups_cons (c : Char) (l : List Char) :
    specWsGroups (c :: l)
      = (c :: l.takeWhile (fun x => rustIsWhitespace x == rustIsWhitespace c))
        :: specWsGroups
          (l.dropWhile (fun x => rustIsWhitespace x == rustIsWhitespace c))
    := by
  induction l generalizing c with
  | nil => rfl
  | cons d l ih =>
    by_cases hfl : rustIsWhitespace d = rustIsWhitespace c
    · have hb : (rustIsWhitespace d == rustIsWhitespace c) = true := by
        simp [hfl]
      have hcd : (rustIsWhitespace c == rustIsWhitespace d) = true := by
        simp [hfl]
      show specWsStep c (specWsGroups (d :: l)) = _
      rw [ih d]
      unfold specWsStep
      simp only [hcd, if_true]
      rw [List.takeWhile_cons, List.dropWhile_cons, hb]
      simp only [if_true]
      have hpred :
          (fun x => rustIsWhitespace x == rustIsWhitespace d)
            = (fun x => rustIsWhitespace x == rustIsWhitespace c) := by
        funext x
        rw [hfl]
      rw [hpred]
    · have hb : (rustIsWhitespace d == rustIsWhitespace c) = false := by
        simp [hfl]
      have hcd : (rustIsWhitespace c == rustIsWhitespace d) = false := by
        simp
        intro he
        exact hfl he.symm
      show specWsStep c (specWsGroups (d :: l)) = _
      rw [ih d]
      unfold specWsStep
      simp only [hcd, Bool.false_eq_true, if_false]
      rw [List.takeWhile_cons, List.dropWhile_cons, hb]
      simp only [Bool.false_eq_true, if_false]
      rw [← ih d]

/-- Leading whitespace does not change the word split. -/
theorem splitWhitespace_dropWhile_ws (l : List Char) :
    splitWhitespace (l.dropWhile rustIsWhitespace) = splitWhitespace l := by
  induction l with
  | nil => rfl
  | cons c t ih =>
    by_cases h : rustIsWhitespace c
    · rw [List.dropWhile_cons_of_pos h, ih, splitWhitespace_cons_ws t h]
    · rw [List.dropWhile_cons_of_neg h]

/-- The source's whitespace split computes exactly the spec's maximal
non-whitespace runs. -/
theorem splitWhitespace_eq_specWhitespaceRuns (l : List Char) :
    splitWhitespace l = specWhitespaceRuns l := by
  have key : ∀ n (l : List Char), l.length ≤ n →
      splitWhitespace l = specWhitespaceRuns l := by
    intro n
    induction n with
    | zero =>
      intro l hl
      have : l = [] := List.eq_nil_of_length_eq_zero (Nat.le_zero.mp hl)
      subst this
      rfl
    | succ n ih =>
      intro l hl
      cases l with
      | nil => rfl
      | cons c t =>
        by_cases hws : rustIsWhitespace c
        · have hpred : (fun x => rustIsWhitespace x == rustIsWhitespace c)
              = rustIsWhitespace := by
            funext x
            rw [hws]
            cases rustIsWhitespace x <;> rfl
          rw [splitWhitespace_cons_ws t hws]
          unfold specWhitespaceRuns
          rw [specWsGroups_cons, hpred, List.filter_cons]
          simp only [hws, Bool.not_true, Bool.false_eq_true, if_false]
          have hlen : (t.dropWhile rustIsWhitespace).length ≤ n :=
            le_trans (List.dropWhile_sublist _).length_le
              (Nat.le_of_succ_le_succ hl)
          rw [← splitWhitespace_dropWhile_ws t, ih _ hlen]
          rfl
        · have hwsf : rustIsWhitespace c = false :=
            Bool.eq_false_iff.mpr hws
          have hpred : (fun x => rustIsWhitespace x == rustIsWhitespace c)
              = nonWsB := by
            funext x
            rw [hwsf]
            cases h : rustIsWhitespace x <;> simp [nonWsB, h]
          rw [splitWhitespace_cons_nonws t hwsf]
          unfold specWhitespaceRuns
          rw [specWsGroups_cons, hpred, List.filter_cons]
          simp only [hwsf, Bool.not_false, if_true]
          have hlen : (t.dropWhile nonWsB).length ≤ n :=
            le_trans (List.dropWhile_sublist _).length_le
              (Nat.le_of_succ_le_succ hl)
          rw [ih _ hlen]
          rfl
  exact key l.length l le_rfl

/-- The texts of the fallback loop's tokens: the admitted words,
lowercased, independent of the offset bookkeeping. -/
theorem fallbackLoop_map_text (bytes : List Nat) (ws : List (List Char)) :
    ∀ off pos, (fallbackLoop bytes ws off pos).map Token.text
      = (ws.filter (fun w => !w.isEmpty && shouldIncludeSimpleToken w)).map
          lowerStr := by
  induction ws with
  | nil => intro off pos; rfl
  | cons w rest ih =>
    intro off pos
    unfold fallbackLoop
    by_cases h : (!w.isEmpty && shouldIncludeSimpleToken w) = true
    · rw [if_pos h, List.filter_cons, h]
      simp only [if_true, List.map_cons, ih]
    · rw [if_neg (by simp [Bool.not_eq_true] at h ⊢; exact h)]
      rw [List.filter_cons]
      have h' : (!w.isEmpty && shouldIncludeSimpleToken w) = false :=
        Bool.eq_false_iff.mpr h
      rw [h']
      simp only [Bool.false_eq_true, if_false]
      exact ih _ _

/-- Positions of the fallback loop's tokens are dense from the starting
counter: token `i` carries position `pos + i`. -/
theorem fallbackLoop_map_position (bytes : List Nat)
    (ws : List (List Char)) :
    ∀ off pos, (fallbackLoop bytes ws off pos).map Token.position
      = List.range' pos (fallbackLoop bytes ws off pos).length := by
  induction ws with
  | nil => intro off pos; rfl
  | cons w rest ih =>
    intro off pos
    unfold fallbackLoop
    by_cases h : (!w.isEmpty && shouldIncludeSimpleToken w) = true
    · rw [if_pos h]
      simp only [List.map_cons, List.length_cons, List.range'_succ, ih]
    · rw [if_neg (by simp [Bool.not_eq_true] at h ⊢; exact h)]
      exact ih _ _

/-- C2 counterexample: on the unspaced mixed-class input `あb` the
fallback tokenizer emits the single token `あb`, although the spec's
class-run segmentation of that input is the two runs `あ`, `b` — the
emitted token is not a same-class run, refuting the claim. -/
theorem fallback_segmentation_counterexample :
    (fallbackTokenize ['あ', 'b']).map Token.text = [['あ', 'b']] ∧
    specClassRuns ['あ', 'b'] = [['あ'], ['b']] ∧
    ∀ u ∈ specClassRuns ['あ', 'b'], u ≠ ['あ', 'b'] := by
  decide

/-- C2 amended (claim theorem): in fallback mode the token sequence is the
admitted maximal runs of NON-WHITESPACE characters, lowercased, in order —
whitespace runs separate tokens and are never emitted, but class
transitions inside an unspaced run do NOT split it.  Positions are dense
over the admitted sequence. -/
theorem fallback_segmentation_amended (text : List Char) :
    (fallbackTokenize text).map Token.text
      = ((specWhitespaceRuns text).filter shouldIncludeSimpleToken).map
          lowerStr ∧
    (fallbackTokenize text).map Token.position
      = List.range' 0 (fallbackTokenize text).length := by
  constructor
  · unfold fallbackTokenize
    rw [fallbackLoop_map_text, ← splitWhitespace_eq_specWhitespaceRuns]
    have : (splitWhitespace text).filter
        (fun w => !w.isEmpty && shouldIncludeSimpleToken w)
        = (splitWhitespace text).filter shouldIncludeSimpleToken := by
      apply List.filter_congr
      intro w hw
      have : w.isEmpty = false := by
        cases w with
        | nil => exact absurd rfl (splitWhitespace_ne_nil hw)
        | cons a b => rfl
      rw [this]
      rfl
    rw [this]
  · unfold fallbackTokenize
    rw [fallbackLoop_map_position]

/-! ## Character-class facts -/

/-- No code point in `33 ..= 126` is Unicode whitespace. -/
theorem ws_false_mid {c : Char} (h1 : 33 ≤ c.toNat) (h2 : c.toNat ≤ 126) :
    rustIsWhitespace c = false := by
  unfold rustIsWhitespace
  simp only [Bool.or_eq_false_iff, beq_eq_false_iff_ne, ne_eq,
    Bool.and_eq_false_iff, decide_eq_false_iff_not, not_le]
  omega

/-- No code point at or above `U+3001` is Unicode whitespace. -/
theorem ws_false_high {c : Char} (h : 0x3001 ≤ c.toNat) :
    rustIsWhitespace c = false := by
  unfold rustIsWhitespace
  simp only [Bool.or_eq_false_iff, beq_eq_false_iff_ne, ne_eq,
    Bool.and_eq_false_iff, decide_eq_false_iff_not, not_le]
  omega

/-- ASCII punctuation lies within `33 ..= 126`. -/
theorem asciiPunct_bounds {c : Char} (h : isAsciiPunct c = true) :
    33 ≤ c.toNat ∧ c.toNat ≤ 126 := by
  unfold isAsciiPunct at h
  simp only [Bool.or_eq_true, Bool.and_eq_true, decide_eq_true_eq] at h
  omega

/-- Letters are not ASCII punctuation. -/
theorem asciiPunct_false_of_letter {c : Char}
    (h : 65 ≤ c.toNat ∧ c.toNat ≤ 90 ∨ 97 ≤ c.toNat ∧ c.toNat ≤ 122) :
    isAsciiPunct c = false := by
  unfold isAsciiPunct
  simp only [Bool.or_eq_false_iff, Bool.and_eq_false_iff,
    decide_eq_false_iff_not, not_le]
  omega

/-- Code points above ASCII are not ASCII punctuation. -/
theorem asciiPunct_false_of_high {c : Char} (h : 127 ≤ c.toNat) :
    isAsciiPunct c = false := by
  unfold isAsciiPunct
  simp only [Bool.or_eq_false_iff, Bool.and_eq_false_iff,
    decide_eq_false_iff_not, not_le]
  omega

/-- The full-width punctuation set, by code point. -/
theorem fullwidthPunct_toNat {c : Char} (h : isFullwidthPunct c = true) :
    c.toNat = 0x3001 ∨ c.toNat = 0x3002 ∨ c.toNat = 0xFF01 ∨
    c.toNat = 0xFF1F ∨ c.toNat = 0xFF08 ∨ c.toNat = 0xFF09 ∨
    c.toNat = 0x300C ∨ c.toNat = 0x300D ∨ c.toNat = 0x30FB := by
  unfold isFullwidthPunct at h
  simp only [Bool.or_eq_true, beq_iff_eq] at h
  rcases h with ((((((((h | h) | h) | h) | h) | h) | h) | h) | h) <;>
    subst h <;> decide

/-- Code points below the syllabary block are not syllabary/logographic. -/
theorem japanese_false_of_low {c : Char} (h : c.toNat ≤ 0x3041) :
    (isHiragana c || isKatakana c || isKanji c) = false := by
  unfold isHiragana isKatakana isKanji
  simp only [Bool.or_eq_false_iff, Bool.and_eq_false_iff,
    decide_eq_false_iff_not, not_le]
  omega

/-- A byte in `33 ..` is not ASCII whitespace. -/
theorem asciiWsByte_false_of_ge {b : Nat} (h : 33 ≤ b) :
    isAsciiWsByte b = false := by
  unfold isAsciiWsByte
  simp only [Bool.or_eq_false_iff, beq_eq_false_iff_ne, ne_eq]
  omega

/-- UTF-8 of an ASCII scalar is its single byte. -/
theorem charUtf8_ascii {c : Char} (h : c.toNat < 0x80) :
    charUtf8 c = [c.toNat] := by
  show (if c.toNat < 0x80 then [c.toNat]
    else if c.toNat < 0x800 then _ else if c.toNat < 0x10000 then _ else _)
    = [c.toNat]
  rw [if_pos h]

/-- UTF-8 of a scalar in the three-byte range. -/
theorem charUtf8_three {c : Char} (h1 : 0x800 ≤ c.toNat)
    (h2 : c.toNat < 0x10000) :
    charUtf8 c = [0xE0 + c.toNat / 4096, 0x80 + (c.toNat / 64) % 64,
      0x80 + c.toNat % 64] := by
  show (if c.toNat < 0x80 then _
    else if c.toNat < 0x800 then _ else if c.toNat < 0x10000 then
      [0xE0 + c.toNat / 4096, 0x80 + (c.toNat / 64) % 64,
        0x80 + c.toNat % 64] else _) = _
  rw [if_neg (by omega), if_neg (by omega), if_pos h2]

/-- No bytes are skipped when the first byte is not ASCII whitespace. -/
theorem leadWsCount_eq_zero {bs : List Nat}
    (h : isAsciiWsByte (bs.headD 0) = false) : leadWsCount bs = 0 := by
  cases bs with
  | nil => rfl
  | cons b rest =>
    unfold leadWsCount
    rw [List.takeWhile_cons]
    simp only [List.headD_cons] at h
    rw [h]
    rfl

/-- A single non-whitespace, non-punctuation character is admitted by the
fallback filter. -/
theorem shouldIncludeSimpleToken_single {c : Char}
    (hws : rustIsWhitespace c = false) (hp : isAsciiPunct c = false) :
    shouldIncludeSimpleToken [c] = true := by
  unfold shouldIncludeSimpleToken rustTrim
  simp [List.dropWhile_cons, hws, hp]

/-- Fallback tokenization of one admitted character. -/
theorem fallbackTokenize_single_char {c : Char}
    (hws : rustIsWhitespace c = false)
    (hinc : shouldIncludeSimpleToken [c] = true)
    (hbyte : isAsciiWsByte ((charUtf8 c).headD 0) = false) :
    fallbackTokenize [c] = [⟨lowerStr [c], 0, utf8Len [c], 0⟩] := by
  have hsplit : splitWhitespace [c] = [[c]] := by
    apply splitWhitespace_single (by simp)
    intro x hx
    rw [List.mem_singleton] at hx
    subst hx
    exact hws
  have henc : utf8Encode [c] = charUtf8 c := by
    simp [utf8Encode]
  unfold fallbackTokenize
  rw [hsplit]
  unfold fallbackLoop
  rw [henc, List.drop_zero, leadWsCount_eq_zero hbyte]
  simp only [List.isEmpty_cons, Bool.not_false, hinc, Bool.and_self,
    if_true, Nat.add_zero, Nat.zero_add]
  unfold fallbackLoop
  rw [utf8Len, henc]

/-- C3 counterexample: in fallback mode a single Latin letter is admitted
(one token, not zero), and a full-width punctuation mark — an input
consisting only of punctuation — is admitted as well, refuting the claim
that these hold "in every tokenizer mode". -/
theorem admission_filter_counterexample :
    (fallbackTokenize ['a']).length = 1 ∧
    (fallbackTokenize ['、']).length = 1 := by
  decide

/-- C3 amended (claim theorem): the admission filter differs per mode.
ASCII-punctuation-only input yields zero tokens in fallback mode, and the
dictionary-mode predicate rejects any unit made of ASCII or full-width
punctuation; but a single Latin letter IS admitted in fallback mode (one
token) while the dictionary-mode predicate rejects it; a single
logographic character is admitted in fallback mode, and by the
dictionary-mode predicate exactly when its part-of-speech features do not
mark it as symbol/particle/auxiliary or a noun. -/
theorem admission_filter_amended :
    (∀ w : List Char, w.all isAsciiPunct = true → fallbackTokenize w = [])
    ∧
    (∀ (s : List Char) (features : Option (List (List Char))),
      s.all (fun c => isAsciiPunct c || isFullwidthPunct c) = true →
      shouldIncludeToken s features = false) ∧
    (∀ c : Char,
      65 ≤ c.toNat ∧ c.toNat ≤ 90 ∨ 97 ≤ c.toNat ∧ c.toNat ≤ 122 →
      fallbackTokenize [c] = [⟨[lowerChar c], 0, 1, 0⟩] ∧
      ∀ features, shouldIncludeToken [c] features = false) ∧
    (∀ c : Char, 0x4E00 ≤ c.toNat ∧ c.toNat ≤ 0x9FAF →
      fallbackTokenize [c] = [⟨[c], 0, 3, 0⟩] ∧
      shouldIncludeToken [c] none = true ∧
      shouldIncludeToken [c] (some [['名', '詞']]) = false) := by
  refine ⟨?_, ?_, ?_, ?_⟩
  · intro w hall
    cases w with
    | nil => rfl
    | cons c t =>
      have hmem : ∀ x ∈ c :: t, isAsciiPunct x = true := by
        simpa [List.all_eq_true] using hall
      have hws : ∀ x ∈ c :: t, rustIsWhitespace x = false := by
        intro x hx
        obtain ⟨h1, h2⟩ := asciiPunct_bounds (hmem x hx)
        exact ws_false_mid h1 h2
      have hsplit := splitWhitespace_single (w := c :: t) (by simp) hws
      have hinc : shouldIncludeSimpleToken (c :: t) = false := by
        unfold shouldIncludeSimpleToken
        by_cases h1 : (rustTrim (c :: t)).isEmpty
        · rw [if_pos h1]
        · rw [if_neg h1, if_pos hall]
      unfold fallbackTokenize
      rw [hsplit]
      unfold fallbackLoop
      rw [hinc]
      simp only [Bool.and_false, Bool.false_eq_true, if_false]
      rfl
  · intro s features hall
    unfold shouldIncludeToken
    by_cases h1 : (rustTrim s).isEmpty
    · rw [if_pos h1]
    · rw [if_neg h1]
      by_cases h2 : posExcludedCheck s features
      · rw [if_pos h2]
      · rw [if_neg h2, if_pos hall]
  · intro c h
    have hws : rustIsWhitespace c = false := ws_false_mid (by omega) (by omega)
    have hp : isAsciiPunct c = false := asciiPunct_false_of_letter h
    have hascii : c.toNat < 0x80 := by omega
    have hlen : utf8Len [c] = 1 := by
      simp [utf8Len, utf8Encode, charUtf8_ascii hascii]
    have htrim : ¬((rustTrim [c]).isEmpty = true) := by
      unfold rustTrim
      simp [List.dropWhile_cons, hws]
    constructor
    · have hb : isAsciiWsByte ((charUtf8 c).headD 0) = false := by
        rw [charUtf8_ascii hascii]
        simp only [List.headD_cons]
        exact asciiWsByte_false_of_ge (by omega)
      rw [fallbackTokenize_single_char hws
        (shouldIncludeSimpleToken_single hws hp) hb, hlen]
      rfl
    · intro features
      unfold shouldIncludeToken
      rw [if_neg htrim]
      by_cases h2 : posExcludedCheck [c] features
      · rw [if_pos h2]
      · rw [if_neg h2]
        have hfw : isFullwidthPunct c = false := by
          cases hfwv : isFullwidthPunct c with
          | false => rfl
          | true =>
            have := fullwidthPunct_toNat hfwv
            omega
        rw [if_neg (by simp [List.all_cons, hp, hfw])]
        rw [if_neg (by simp [List.any_cons, japanese_false_of_low
          (show c.toNat ≤ 0x3041 by omega)])]
        rw [hlen]
        rfl
  · intro c h
    have hws : rustIsWhitespace c = false := ws_false_high (by omega)
    have hp : isAsciiPunct c = false := asciiPunct_false_of_high (by omega)
    have h3 : charUtf8 c = [0xE0 + c.toNat / 4096, 0x80 + (c.toNat / 64) % 64,
        0x80 + c.toNat % 64] := charUtf8_three (by omega) (by omega)
    have hb : isAsciiWsByte ((charUtf8 c).headD 0) = false := by
      rw [h3]
      simp only [List.headD_cons]
      exact asciiWsByte_false_of_ge (by omega)
    have hlen3 : utf8Len [c] = 3 := by
      simp [utf8Len, utf8Encode, h3]
    have htrim : ¬((rustTrim [c]).isEmpty = true) := by
      unfold rustTrim
      simp [List.dropWhile_cons, hws]
    have hfw : isFullwidthPunct c = false := by
      cases hfwv : isFullwidthPunct c with
      | false => rfl
      | true =>
        have := fullwidthPunct_toNat hfwv
        omega
    have hkanji : isKanji c = true := by
      unfold isKanji
      simp only [Bool.and_eq_true, decide_eq_true_eq]
      omega
    refine ⟨?_, ?_, ?_⟩
    · have hlc : lowerChar c = c := by
        unfold lowerChar
        rw [if_neg (by simp; omega)]
      rw [fallbackTokenize_single_char hws
        (shouldIncludeSimpleToken_single hws hp) hb, hlen3]
      show [Token.mk [lowerChar c] 0 3 0] = [Token.mk [c] 0 3 0]
      rw [hlc]
    · unfold shouldIncludeToken
      rw [if_neg htrim]
      rw [if_neg (show ¬(posExcludedCheck [c] none = true) by
        intro hh; cases hh)]
      rw [if_neg (by simp [List.all_cons, hp, hfw])]
      rw [if_pos (by simp [List.any_cons, hkanji])]
    · unfold shouldIncludeToken
      rw [if_neg htrim]
      rw [if_pos (show posExcludedCheck [c] (some [['名', '詞']]) = true
        from rfl)]

/-- C3 witness for the amended theorem: punctuation, a Latin letter, and a
kanji, each pushed through both admission paths. -/
theorem admission_filter_amended_witness :
    fallbackTokenize ['.', '!'] = [] ∧
    fallbackTokenize ['a'] = [⟨[lowerChar 'a'], 0, 1, 0⟩] ∧
    shouldIncludeToken ['a'] none = false ∧
    fallbackTokenize ['漢'] = [⟨['漢'], 0, 3, 0⟩] ∧
    shouldIncludeToken ['漢'] none = true ∧
    shouldIncludeToken ['漢'] (some [['名', '詞']]) = false := by
  have h := admission_filter_amended
  exact ⟨h.1 ['.', '!'] (by decide), (h.2.2.1 'a' (by decide)).1,
    (h.2.2.1 'a' (by decide)).2 none, (h.2.2.2 '漢' (by decide)).1,
    (h.2.2.2 '漢' (by decide)).2.1, (h.2.2.2 '漢' (by decide)).2.2⟩

/-- C7 (claim theorem, exhibiting the bug): on `あ　い` — two words
separated by an ideographic space `U+3000` — the fallback tokenizer's
byte-skipping loop (which only skips ASCII whitespace, while
`split_whitespace` splits on all Unicode whitespace) fails to advance
past the 3-byte separator: the second token `い` is emitted with byte
offsets `[3, 6)`, but that byte slice of the source holds the separator
`　`, not the token's surface form `い`. -/
theorem token_offsets_ideographic_space :
    fallbackTokenize ['あ', '　', 'い']
      = [⟨['あ'], 0, 3, 0⟩, ⟨['い'], 3, 6, 1⟩] ∧
    ((utf8Encode ['あ', '　', 'い']).drop 3).take 3 = utf8Encode ['　'] ∧
    utf8Encode ['　'] ≠ utf8Encode ['い'] := by
  decide
